import Mathlib

/-!
Verification of the fast.com download-speed measurement tool (package main in
fast.go and package api). The program probes each configured target URL with
testing.Benchmark, converts the benchmark result into a megabits-per-second
sample weighted by the iteration count, and aggregates the samples with
stat.MeanStdDev from github.com/gonum/stat.

Numeric model: the Go program computes in float64. We model float64 values in
exact rational arithmetic as `Option ℚ`: `some q` is the finite value `q`, and
`none` marks any non-finite IEEE result (NaN or an infinity). Every input the
program feeds into these computations is finite, and no step below ever divides
by a previously produced non-finite value, so non-finite values arise only from
a division whose (finite) divisor is zero, and from then on they propagate
through addition, subtraction, multiplication, division and square root exactly
as `none` propagates below.
-/

/-- Exact model of a Go float64 value: `some q` is the finite value `q`; `none`
is a non-finite value (IEEE NaN or ±Inf). -/
abbrev FQ := Option ℚ

/-- Addition of float64 values. A non-finite operand yields a non-finite
result in every case that occurs here (NaN propagates; Inf + finite = Inf;
Inf - Inf = NaN). -/
def fadd : FQ → FQ → FQ
  | some a, some b => some (a + b)
  | _, _ => none

/-- Subtraction of float64 values; non-finite operands propagate as in `fadd`. -/
def fsub : FQ → FQ → FQ
  | some a, some b => some (a - b)
  | _, _ => none

/-- Multiplication of float64 values. A non-finite operand yields a non-finite
result (note IEEE 0 * NaN = NaN and 0 * Inf = NaN, so `none` absorbs even a
zero finite operand). -/
def fmul : FQ → FQ → FQ
  | some a, some b => some (a * b)
  | _, _ => none

/-- Division of float64 values. Division of a finite value by zero is
non-finite (0/0 = NaN, a/0 = ±Inf). The program never divides by a
non-finite value, so the `none`-divisor case never feeds back into a finite
value. -/
def fdiv : FQ → FQ → FQ
  | some a, some b => if b = 0 then none else some (a / b)
  | _, _ => none

/-- Square root of a float64 value, as Go math.Sqrt: NaN for a negative
argument, and non-finite for a non-finite argument (sqrt NaN = NaN,
sqrt (+Inf) = +Inf). The result lives in ℝ. -/
noncomputable def fsqrt : FQ → Option ℝ
  | none => none
  | some q => if q < 0 then none else some (Real.sqrt (q : ℝ))

/-- Embeds stat.Mean from github.com/gonum/stat, the aggregation dependency of
fast.go. The Go loop is `for i, w := range weights { sumValues += w * x[i];
sumWeights += w }` followed by `return sumValues / sumWeights`. Accumulation of
finite inputs is exact; the final division marks the non-finite case
(sumWeights = 0, where Go produces NaN or ±Inf). Go indexes `x[i]` for every
weight and panics when `x` is shorter than `weights`; the embedding is only
used at equal lengths, where the zip coincides with the loop. -/
def Mean (x weights : List ℚ) : FQ :=
  let acc := (weights.zip x).foldl
    (fun (a : ℚ × ℚ) wv => (a.1 + wv.1 * wv.2, a.2 + wv.1)) ((0 : ℚ), (0 : ℚ))
  fdiv (some acc.1) (some acc.2)

/-- Embeds stat.MeanVariance from github.com/gonum/stat: the corrected two-pass
algorithm. First pass computes the mean. The second pass, over `x`, runs
`d := v - mean; wd := w * d; ss += wd * d; compensation += wd; sumWeights += w`
and returns `(ss - compensation*compensation/sumWeights) / (sumWeights - 1)`.
The mean and both accumulators flow through `FQ` so that a NaN mean (zero total
weight) propagates through the second pass exactly as IEEE float64 arithmetic
propagates it; the per-item weights are finite inputs, so `sumWeights` stays in
ℚ. -/
def MeanVariance (x weights : List ℚ) : FQ × FQ :=
  let mean := Mean x weights
  let st := (x.zip weights).foldl
    (fun (a : FQ × FQ × ℚ) vw =>
      let d := fsub (some vw.1) mean
      let wd := fmul (some vw.2) d
      (fadd a.1 (fmul wd d), fadd a.2.1 wd, a.2.2 + vw.2))
    ((some 0 : FQ), (some 0 : FQ), (0 : ℚ))
  (mean, fdiv (fsub st.1 (fdiv (fmul st.2.1 st.2.1) (some st.2.2))) (some (st.2.2 - 1)))

/-- Embeds stat.MeanStdDev from github.com/gonum/stat:
`mean, variance := MeanVariance(x, weights); return mean, math.Sqrt(variance)`. -/
noncomputable def MeanStdDev (x weights : List ℚ) : FQ × Option ℝ :=
  let mv := MeanVariance x weights
  (mv.1, fsqrt mv.2)

/-- Closed form Σ x_i * w_i over positionally paired lists (the spec formula
Σ(sample.mbps * sample.weight)), used to state the aggregation claims. -/
def dot (x w : List ℚ) : ℚ := ((x.zip w).map (fun p => p.1 * p.2)).sum

/-- Closed form Σ w_i * (x_i - m)^2 (the spec formula Σ(weight * (mbps - mean)^2)),
used to state the aggregation claims. -/
def wss (x w : List ℚ) (m : ℚ) : ℚ := ((x.zip w).map (fun p => p.2 * (p.1 - m) ^ 2)).sum

/-- Embeds testing.BenchmarkResult as used by main: `N` is the number of
iterations run, `T` the measured wall time of the benchmark as a
time.Duration (nanoseconds), and `Bytes` the per-iteration byte count set by
b.SetBytes — main sets it via `once.Do(func() { b.SetBytes(nw) })`, i.e. from
the first completed iteration only. -/
structure BenchmarkResult where
  N : ℕ
  T : ℤ
  Bytes : ℤ
deriving DecidableEq

/-- Embeds time.Duration.Seconds(): the duration in nanoseconds divided by
1e9, exact in ℚ. -/
def seconds (d : ℤ) : ℚ := (d : ℚ) / 1000000000

/-- Embeds the throughput line in main
`mbps := float64(r.Bytes*int64(r.N)*8) / 1e6 / r.T.Seconds()`. The integer
product is exact (no overflow is modelled); the final division by the elapsed
seconds is non-finite when `r.T = 0` (Go: 0/0 = NaN or x/0 = ±Inf). -/
def mbps (r : BenchmarkResult) : FQ :=
  fdiv (some (((r.Bytes * (r.N : ℤ) * 8 : ℤ) : ℚ) / 1000000)) (some (seconds r.T))

/-- Network behaviour of one target during its probe, the external input to
testing.Benchmark in main: either the GET or body read of some worker fails
(`fails = true`, making that worker call b.Fatal), or all transfers succeed
and the benchmark accumulates `result`. -/
structure ProbeBehavior where
  fails : Bool
  result : BenchmarkResult

/-- Embeds `r := testing.Benchmark(func(b *testing.B) { ... b.RunParallel ... })`
as called in main. the return type of testing.Benchmark is a plain BenchmarkResult:
it carries no error value. When the GET or body read of a worker fails, the worker
calls b.Fatal, which marks the benchmark failed and aborts that worker; for a
failure in the initial sizing run, Benchmark skips the measuring phase and
returns the zero BenchmarkResult, and its FAIL output goes to a discard
writer. When no transfer fails, Benchmark returns the accumulated result. -/
def benchmark (t : ProbeBehavior) : BenchmarkResult :=
  if t.fails then ⟨0, 0, 0⟩ else t.result

/-- Embeds the loop of main over c.Targets: for each target it runs
testing.Benchmark, computes `mbps`, and executes
`x = append(x, mbps); weights = append(weights, float64(r.N))`. The loop has
no break or early return: it visits every target in order. -/
def mainLoop (targets : List ProbeBehavior) : List FQ × List ℚ :=
  targets.foldl
    (fun (acc : List FQ × List ℚ) t =>
      let r := benchmark t
      (acc.1 ++ [mbps r], acc.2 ++ [((r.N : ℚ))]))
    ([], [])

/-- Embeds the Location struct of package api. -/
structure Location where
  country : String
  city : String
deriving DecidableEq

/-- Embeds the Client struct of package api; net.IP is modelled as its string
form. -/
structure Client where
  asn : String
  isp : String
  location : Location
  ip : String
deriving DecidableEq

/-- Embeds the Target struct of package api. -/
structure Target where
  url : String
  location : Location
  name : String
deriving DecidableEq

/-- Embeds the Config struct of package api. -/
structure Config where
  client : Client
  targets : List Target
deriving DecidableEq

/-- Embeds the response handling of api.Load (package api): the switch on
resp.StatusCode — 200 falls through, 403 returns
`errors.New("invalid API token")`, and any other status returns
`fmt.Errorf("non-200 status code: %d", c)` — followed, in the 200 case only,
by the JSON decode of the body, whose outcome is the `decoded` argument
(`Except.error e` when `json.NewDecoder(resp.Body).Decode(&cfg)` fails,
`Except.ok cfg` otherwise). The request-building and transport steps that
precede the switch return their own errors and never reach it. -/
def Load (status : ℕ) (decoded : Except String Config) : Except String Config :=
  if status = 200 then decoded
  else if status = 403 then Except.error "invalid API token"
  else Except.error ("non-200 status code: " ++ toString status)

theorem fadd_some (a b : ℚ) : fadd (some a) (some b) = some (a + b) := rfl

theorem fsub_some (a b : ℚ) : fsub (some a) (some b) = some (a - b) := rfl

theorem fmul_some (a b : ℚ) : fmul (some a) (some b) = some (a * b) := rfl

theorem fdiv_some (a b : ℚ) : fdiv (some a) (some b) = if b = 0 then none else some (a / b) := rfl

theorem dot_nil_left (w : List ℚ) : dot [] w = 0 := by simp [dot]

theorem dot_nil_right (x : List ℚ) : dot x [] = 0 := by cases x <;> simp [dot]

theorem dot_cons (a b : ℚ) (x w : List ℚ) : dot (a :: x) (b :: w) = a * b + dot x w := by
  simp [dot]

theorem wss_nil_left (w : List ℚ) (m : ℚ) : wss [] w m = 0 := by simp [wss]

theorem wss_cons (a b : ℚ) (x w : List ℚ) (m : ℚ) :
    wss (a :: x) (b :: w) m = b * (a - m) ^ 2 + wss x w m := by
  simp [wss]

theorem mean_foldl (l : List (ℚ × ℚ)) : ∀ a b : ℚ,
    l.foldl (fun (a : ℚ × ℚ) wv => (a.1 + wv.1 * wv.2, a.2 + wv.1)) (a, b)
      = (a + (l.map fun p => p.1 * p.2).sum, b + (l.map Prod.fst).sum) := by
  induction l with
  | nil => simp
  | cons p l ih =>
    intro a b
    simp only [List.foldl_cons, List.map_cons, List.sum_cons, ih]
    rw [Prod.mk.injEq]
    constructor <;> ring

theorem zip_mul_swap (x w : List ℚ) :
    ((w.zip x).map fun p => p.1 * p.2).sum = dot x w := by
  induction x generalizing w with
  | nil => cases w <;> simp [dot]
  | cons a x ih =>
    cases w with
    | nil => simp [dot_nil_right]
    | cons b w => simp [dot_cons, ih, mul_comm]

theorem Mean_eq (x w : List ℚ) (h : x.length = w.length) :
    Mean x w = if w.sum = 0 then none else some (dot x w / w.sum) := by
  unfold Mean
  rw [mean_foldl]
  simp only [fdiv, zero_add]
  rw [zip_mul_swap, List.map_fst_zip _ _ (le_of_eq h.symm)]

theorem var_foldl (l : List (ℚ × ℚ)) (m : ℚ) : ∀ (a b : ℚ) (c : ℚ),
    l.foldl
      (fun (acc : FQ × FQ × ℚ) vw =>
        (fadd acc.1 (fmul (fmul (some vw.2) (fsub (some vw.1) (some m))) (fsub (some vw.1) (some m))),
         fadd acc.2.1 (fmul (some vw.2) (fsub (some vw.1) (some m))),
         acc.2.2 + vw.2))
      ((some a : FQ), (some b : FQ), c)
    = (some (a + (l.map fun p => p.2 * (p.1 - m) ^ 2).sum),
       some (b + (l.map fun p => p.2 * (p.1 - m)).sum),
       c + (l.map Prod.snd).sum) := by
  induction l with
  | nil =>
    intro a b c
    simp
  | cons p l ih =>
    intro a b c
    rw [List.foldl_cons]
    show List.foldl _
      ((some (a + p.2 * (p.1 - m) * (p.1 - m)) : FQ), (some (b + p.2 * (p.1 - m)) : FQ), c + p.2) l = _
    rw [ih]
    simp only [List.map_cons, List.sum_cons, Prod.mk.injEq, Option.some.injEq]
    refine ⟨by ring, by ring, by ring⟩

theorem map_sub_sum (l : List (ℚ × ℚ)) (m : ℚ) :
    (l.map fun p => p.2 * (p.1 - m)).sum
      = (l.map fun p => p.1 * p.2).sum - m * (l.map Prod.snd).sum := by
  induction l with
  | nil => simp
  | cons p l ih =>
    simp only [List.map_cons, List.sum_cons, ih]
    ring

theorem zip_mul_dot (x w : List ℚ) :
    ((x.zip w).map fun p => p.1 * p.2).sum = dot x w := by
  simp [dot]

theorem zip_sq_wss (x w : List ℚ) (m : ℚ) :
    ((x.zip w).map fun p => p.2 * (p.1 - m) ^ 2).sum = wss x w m := by
  simp [wss]

theorem MeanVariance_eq (x w : List ℚ) (h : x.length = w.length) (h0 : w.sum ≠ 0) :
    MeanVariance x w
      = (some (dot x w / w.sum),
         if w.sum = 1 then none
         else some (wss x w (dot x w / w.sum) / (w.sum - 1))) := by
  have hm : Mean x w = some (dot x w / w.sum) := by
    rw [Mean_eq x w h]
    simp [h0]
  unfold MeanVariance
  rw [hm]
  dsimp only
  rw [var_foldl]
  rw [zip_sq_wss, map_sub_sum, zip_mul_dot,
    List.map_snd_zip _ _ (le_of_eq h.symm)]
  have hc : dot x w - dot x w / w.sum * w.sum = 0 := by
    field_simp
  simp only [zero_add, hc, fmul_some, mul_zero, fdiv_some, h0, if_false, zero_div,
    fsub_some, sub_zero]
  by_cases h1 : w.sum = 1
  · simp [h1]
  · have : w.sum - 1 ≠ 0 := sub_ne_zero.mpr h1
    simp [h1, this]

theorem mainLoop_foldl (ts : List ProbeBehavior) : ∀ (xs : List FQ) (ws : List ℚ),
    ts.foldl
      (fun (acc : List FQ × List ℚ) t =>
        let r := benchmark t
        (acc.1 ++ [mbps r], acc.2 ++ [((r.N : ℚ))]))
      (xs, ws)
    = (xs ++ ts.map (fun t => mbps (benchmark t)),
       ws ++ ts.map (fun t => (((benchmark t).N : ℚ)))) := by
  induction ts with
  | nil =>
    intro xs ws
    simp
  | cons t ts ih =>
    intro xs ws
    rw [List.foldl_cons]
    show List.foldl _ (xs ++ [mbps (benchmark t)], ws ++ [(((benchmark t).N : ℚ))]) ts = _
    rw [ih]
    simp

theorem mainLoop_eq_map (ts : List ProbeBehavior) :
    mainLoop ts
      = (ts.map (fun t => mbps (benchmark t)),
         ts.map (fun t => (((benchmark t).N : ℚ)))) := by
  unfold mainLoop
  rw [mainLoop_foldl]
  simp

theorem dot_le_mul_sum (x w : List ℚ) (hi : ℚ) (h : x.length = w.length)
    (hx : ∀ a ∈ x, a ≤ hi) (hw : ∀ v ∈ w, 0 ≤ v) : dot x w ≤ hi * w.sum := by
  induction x generalizing w with
  | nil =>
    cases w with
    | nil => simp [dot]
    | cons b w => simp at h
  | cons a x ih =>
    cases w with
    | nil => simp at h
    | cons b w =>
      rw [dot_cons, List.sum_cons]
      have hb : (0 : ℚ) ≤ b := hw b (List.mem_cons_self b w)
      have ha : a ≤ hi := hx a (List.mem_cons_self a x)
      have h1 : a * b ≤ hi * b := mul_le_mul_of_nonneg_right ha hb
      have h2 : dot x w ≤ hi * w.sum :=
        ih w (by simpa using h) (fun c hc => hx c (List.mem_cons_of_mem a hc))
          (fun v hv => hw v (List.mem_cons_of_mem b hv))
      calc a * b + dot x w ≤ hi * b + hi * w.sum := add_le_add h1 h2
        _ = hi * (b + w.sum) := by ring

theorem mul_sum_le_dot (x w : List ℚ) (lo : ℚ) (h : x.length = w.length)
    (hx : ∀ a ∈ x, lo ≤ a) (hw : ∀ v ∈ w, 0 ≤ v) : lo * w.sum ≤ dot x w := by
  induction x generalizing w with
  | nil =>
    cases w with
    | nil => simp [dot]
    | cons b w => simp at h
  | cons a x ih =>
    cases w with
    | nil => simp at h
    | cons b w =>
      rw [dot_cons, List.sum_cons]
      have hb : (0 : ℚ) ≤ b := hw b (List.mem_cons_self b w)
      have ha : lo ≤ a := hx a (List.mem_cons_self a x)
      have h1 : lo * b ≤ a * b := mul_le_mul_of_nonneg_right ha hb
      have h2 : lo * w.sum ≤ dot x w :=
        ih w (by simpa using h) (fun c hc => hx c (List.mem_cons_of_mem a hc))
          (fun v hv => hw v (List.mem_cons_of_mem b hv))
      calc lo * (b + w.sum) = lo * b + lo * w.sum := by ring
        _ ≤ a * b + dot x w := add_le_add h1 h2

theorem dot_replicate (x : List ℚ) (c : ℚ) :
    dot x (List.replicate x.length c) = x.sum * c := by
  induction x with
  | nil => simp [dot]
  | cons a x ih =>
    simp only [List.length_cons, List.replicate_succ, dot_cons, List.sum_cons, ih]
    ring

example : MeanVariance [0, 2] [1, 1] = (some 1, some 2) := by
  simp [MeanVariance, Mean, fdiv, fsub, fadd, fmul]
  norm_num

example : MeanVariance [5] [1] = (some 5, none) := by
  simp [MeanVariance, Mean, fdiv, fsub, fadd, fmul]

example : MeanVariance [5] [0] = (none, none) := by
  simp [MeanVariance, Mean, fdiv, fsub, fadd, fmul]

example : mbps ⟨2, 1000000000, 1000000⟩ = some 16 := by
  simp [mbps, seconds, fdiv]
  norm_num

theorem fsqrt_none : fsqrt none = none := rfl

theorem fsqrt_some (q : ℚ) :
    fsqrt (some q) = if q < 0 then none else some (Real.sqrt (q : ℝ)) := rfl

/-- Claim C1, counterexample: the claim derives the throughput figure as
totalBytes * 8 / 1e6 / elapsedTime.Seconds() with totalBytes the
first-iteration byte count (r.Bytes). For the probe result with N = 2
iterations, T = 1 s and Bytes = 1e6, main computes 16 Mbit/s
(Bytes * N * 8 / 1e6 / T) while the formula of the claim gives 8 Mbit/s. -/
theorem c1_sample_formula_counterexample :
    mbps ⟨2, 1000000000, 1000000⟩
      ≠ some (((1000000 : ℚ) * 8) / 1000000 / seconds 1000000000) := by
  have h : mbps ⟨2, 1000000000, 1000000⟩ = some 16 := by
    simp [mbps, seconds, fdiv]
    norm_num
  rw [h]
  intro hc
  rw [Option.some.injEq] at hc
  norm_num [seconds] at hc

/-- Claim C1, amended: for every run, the sample appended for the i-th target
is mbps of its benchmark result and the appended weight is its iteration count
r.N; for a result with nonzero elapsed time, the throughput equals
r.Bytes * r.N * 8 / 1e6 / r.T.Seconds() — the numerator is the
first-iteration byte count times the iteration count, not the first-iteration
byte count alone. -/
theorem c1_sample_formula_amended (ts : List ProbeBehavior) (i : ℕ) (h : i < ts.length) :
    (mainLoop ts).1[i]? = some (mbps (benchmark ts[i])) ∧
    (mainLoop ts).2[i]? = some (((benchmark ts[i]).N : ℚ)) ∧
    ((benchmark ts[i]).T ≠ 0 →
      mbps (benchmark ts[i])
        = some ((((benchmark ts[i]).Bytes * ((benchmark ts[i]).N : ℤ) * 8 : ℤ) : ℚ) / 1000000
            / seconds (benchmark ts[i]).T)) := by
  refine ⟨?_, ?_, ?_⟩
  · rw [mainLoop_eq_map]
    simp [List.getElem?_map, List.getElem?_eq_getElem h]
  · rw [mainLoop_eq_map]
    simp [List.getElem?_map, List.getElem?_eq_getElem h]
  · intro hT
    have hsec : seconds (benchmark ts[i]).T ≠ 0 := by
      simp only [seconds]
      exact div_ne_zero (Int.cast_ne_zero.mpr hT) (by norm_num)
    unfold mbps
    rw [fdiv_some, if_neg hsec]

/-- Witness for c1_sample_formula_amended at a one-target run whose benchmark
result has 2 iterations, 1 s elapsed and 1e6 first-iteration bytes. -/
theorem c1_sample_formula_witness :
    (0 : ℕ) < ([⟨false, ⟨2, 1000000000, 1000000⟩⟩] : List ProbeBehavior).length ∧
    ((⟨2, 1000000000, 1000000⟩ : BenchmarkResult).T ≠ 0) ∧
    (mainLoop [⟨false, ⟨2, 1000000000, 1000000⟩⟩]).1[0]?
      = some (mbps (benchmark ⟨false, ⟨2, 1000000000, 1000000⟩⟩)) ∧
    mbps (benchmark ⟨false, ⟨2, 1000000000, 1000000⟩⟩)
      = some (((1000000 * 2 * 8 : ℤ) : ℚ) / 1000000 / seconds 1000000000) := by
  have h := c1_sample_formula_amended [⟨false, ⟨2, 1000000000, 1000000⟩⟩] 0 (by simp)
  exact ⟨by simp, by decide, h.1, h.2.2 (by decide)⟩

/-- Claim C2, counterexample: the claim computes the aggregate standard
deviation as sqrt(Σ weight*(mbps - mean)^2 / Σ weight). For the samples 0 and
2 with weights 1 and 1, the mean is 1 and the formula of the claim gives
sqrt((1+1)/2) = 1, while stat.MeanStdDev returns sqrt(2) (it divides by
Σ weight - 1). -/
theorem c2_weighted_stddev_counterexample :
    (MeanStdDev [0, 2] [1, 1]).2
      ≠ some (Real.sqrt ((1 * ((0 : ℝ) - 1) ^ 2 + 1 * ((2 : ℝ) - 1) ^ 2) / (1 + 1))) := by
  have hmv : MeanVariance [0, 2] [1, 1] = (some 1, some 2) := by
    simp [MeanVariance, Mean, fdiv, fsub, fadd, fmul]
    norm_num
  have h2 : (MeanStdDev [0, 2] [1, 1]).2 = some (Real.sqrt 2) := by
    show fsqrt (MeanVariance [0, 2] [1, 1]).2 = _
    rw [hmv]
    rw [show ((some 1, some 2) : FQ × FQ).2 = some 2 from rfl, fsqrt_some]
    norm_num
  rw [h2]
  intro hc
  rw [Option.some.injEq] at hc
  rw [show ((1 * ((0 : ℝ) - 1) ^ 2 + 1 * ((2 : ℝ) - 1) ^ 2) / (1 + 1) : ℝ) = 1 by norm_num,
    Real.sqrt_one] at hc
  have h3 : (2 : ℝ) = 1 := Real.sqrt_eq_one.mp hc
  norm_num at h3

/-- Claim C2, amended: for every sample set of equal lengths whose total
weight is neither 0 nor 1, the aggregate standard deviation equals the square
root (as math.Sqrt) of Σ(weight*(mbps - mean)^2) / (Σ weight - 1), the
unbiased weighted variance of gonum, with mean the weighted mean; when the
total weight is 0 or 1 the divisor degenerates and the result is non-finite. -/
theorem c2_weighted_stddev_amended (x w : List ℚ) (hlen : x.length = w.length)
    (h0 : w.sum ≠ 0) (h1 : w.sum ≠ 1) :
    (MeanStdDev x w).2 = fsqrt (some (wss x w (dot x w / w.sum) / (w.sum - 1))) := by
  show fsqrt (MeanVariance x w).2 = _
  rw [MeanVariance_eq x w hlen h0]
  simp [h1]

/-- Witness for c2_weighted_stddev_amended at samples 0 and 2 with weights 1
and 1: the standard deviation evaluates to sqrt 2. -/
theorem c2_weighted_stddev_witness :
    (([0, 2] : List ℚ).length = ([1, 1] : List ℚ).length) ∧
    (([1, 1] : List ℚ).sum ≠ 0) ∧ (([1, 1] : List ℚ).sum ≠ 1) ∧
    (MeanStdDev [0, 2] [1, 1]).2 = some (Real.sqrt 2) := by
  have h := c2_weighted_stddev_amended [0, 2] [1, 1] rfl
    (by norm_num) (by norm_num)
  refine ⟨rfl, by norm_num, by norm_num, ?_⟩
  rw [h]
  have : wss [0, 2] [1, 1] (dot [0, 2] [1, 1] / ([1, 1] : List ℚ).sum)
      / (([1, 1] : List ℚ).sum - 1) = 2 := by
    norm_num [wss, dot]
  rw [this, fsqrt_some]
  norm_num

/-- Claim C3, code-bug evaluation: a failing worker does not abort the run.
Concrete run with two targets where a worker GET fails on the first target and
the second target succeeds (2 iterations, 1e6 bytes per iteration, 1 s):
testing.Benchmark returns the zero BenchmarkResult for the failed target — its
return type carries no error value — so main appends a NaN sample (none) with
weight 0 for it, continues to the second target, and appends its sample too;
nothing aborts the run and no TransferFailure error exists anywhere in the
code path. -/
theorem c3_failfast_code_bug :
    mainLoop [⟨true, ⟨7, 5, 11⟩⟩, ⟨false, ⟨2, 1000000000, 1000000⟩⟩]
      = ([none, some 16], [0, 2]) := by
  rw [mainLoop_eq_map]
  simp [benchmark, mbps, seconds, fdiv]
  norm_num

/-- Claim C4, code-bug evaluation: main performs no aggregation input check.
With an empty sample set, and with a single sample of weight 0,
stat.MeanStdDev yields NaN for the mean and NaN for the standard deviation
(both modelled as none); main prints these values and has no InvalidInput
error path at all. -/
theorem c4_aggregate_degenerate_nan :
    MeanStdDev [] [] = (none, none) ∧ MeanStdDev [5] [0] = (none, none) := by
  constructor
  · show ((MeanVariance [] []).1, fsqrt (MeanVariance [] []).2) = _
    have h : MeanVariance [] [] = (none, none) := by
      simp [MeanVariance, Mean, fdiv, fsub, fadd, fmul]
    rw [h]
    simp [fsqrt_none]
  · show ((MeanVariance [5] [0]).1, fsqrt (MeanVariance [5] [0]).2) = _
    have h : MeanVariance [5] [0] = (none, none) := by
      simp [MeanVariance, Mean, fdiv, fsub, fadd, fmul]
    rw [h]
    simp [fsqrt_none]

/-- Claim C5: for every non-empty sample set (of equal lengths) with positive
total weight, the aggregate mean equals the weighted mean
Σ(sample.mbps * sample.weight) / Σ(sample.weight). -/
theorem c5_weighted_mean (x w : List ℚ) (hne : x ≠ []) (hlen : x.length = w.length)
    (hw : 0 < w.sum) :
    (MeanStdDev x w).1 = some (dot x w / w.sum) := by
  show (MeanVariance x w).1 = _
  rw [MeanVariance_eq x w hlen (ne_of_gt hw)]

/-- Witness for c5_weighted_mean at the spec scenario: throughputs 800 and
1600 Mbit/s with weights 10 and 5 give mean 16000/15 = 3200/3 ≈ 1066.67. -/
theorem c5_weighted_mean_witness :
    (([800, 1600] : List ℚ) ≠ []) ∧ ((0 : ℚ) < ([10, 5] : List ℚ).sum) ∧
    (MeanStdDev [800, 1600] [10, 5]).1 = some (3200 / 3) := by
  refine ⟨by simp, by norm_num, ?_⟩
  have h := c5_weighted_mean [800, 1600] [10, 5] (by simp) rfl (by norm_num)
  rw [h]
  norm_num [dot]

/-- Claim C6, counterexample: the claim asserts that a single sample of any
weight yields standard deviation 0. For one sample of weight 1 the unbiased
divisor Σ weight - 1 of gonum is zero, 0/0 is NaN, and the standard deviation
is non-finite (none), not 0. -/
theorem c6_single_sample_counterexample :
    (MeanStdDev [5] [1]).2 ≠ some 0 := by
  have hmv : MeanVariance [5] [1] = (some 5, none) := by
    simp [MeanVariance, Mean, fdiv, fsub, fadd, fmul]
  show fsqrt (MeanVariance [5] [1]).2 ≠ some 0
  rw [hmv]
  simp [fsqrt_none]

/-- Claim C6, amended: for a sample set containing exactly one sample whose
weight is neither 0 nor 1, the aggregate mean equals the sample value and the
aggregate standard deviation equals 0; with weight exactly 1 the divisor
Σ weight - 1 is zero and the standard deviation is NaN, and with weight 0 both
statistics are NaN. -/
theorem c6_single_sample_amended (v c : ℚ) (h0 : c ≠ 0) (h1 : c ≠ 1) :
    MeanStdDev [v] [c] = (some v, some 0) := by
  have hmv : MeanVariance [v] [c] = (some v, some 0) := by
    rw [MeanVariance_eq [v] [c] rfl (by simpa using h0)]
    simp only [dot_cons, dot_nil_right, wss_cons, List.sum_cons, List.sum_nil, add_zero]
    have hm : v * c / c = v := mul_div_cancel_right₀ v h0
    rw [hm]
    simp [h1, sub_self, wss]
  show ((MeanVariance [v] [c]).1, fsqrt (MeanVariance [v] [c]).2) = _
  rw [hmv]
  rw [show ((some v, some 0) : FQ × FQ).2 = some 0 from rfl, fsqrt_some]
  norm_num

/-- Witness for c6_single_sample_amended at the single sample 5 with
weight 2. -/
theorem c6_single_sample_witness :
    ((2 : ℚ) ≠ 0) ∧ ((2 : ℚ) ≠ 1) ∧ MeanStdDev [5] [2] = (some 5, some 0) :=
  ⟨by norm_num, by norm_num, c6_single_sample_amended 5 2 (by norm_num) (by norm_num)⟩

/-- Claim C7: for every non-empty sample set (of equal lengths) whose weights
are all positive, the aggregate mean is a finite value lying between the
minimum and the maximum of the sample throughput values. -/
theorem c7_mean_between_min_max (x w : List ℚ) (lo hi : ℚ) (hne : x ≠ [])
    (hlen : x.length = w.length) (hw : ∀ v ∈ w, 0 < v)
    (hlo : x.minimum = (lo : WithTop ℚ)) (hhi : x.maximum = (hi : WithBot ℚ)) :
    ∃ m : ℚ, (MeanStdDev x w).1 = some m ∧ lo ≤ m ∧ m ≤ hi := by
  have hwne : w ≠ [] := by
    intro hw0
    apply hne
    rw [hw0] at hlen
    exact List.length_eq_zero.mp (by simpa using hlen)
  have hpos : 0 < w.sum := List.sum_pos w hw hwne
  refine ⟨dot x w / w.sum, ?_, ?_, ?_⟩
  · show (MeanVariance x w).1 = _
    rw [MeanVariance_eq x w hlen (ne_of_gt hpos)]
  · rw [le_div_iff₀ hpos]
    exact mul_sum_le_dot x w lo hlen (fun a ha => List.minimum_le_of_mem ha hlo)
      (fun v hv => le_of_lt (hw v hv))
  · rw [div_le_iff₀ hpos]
    exact dot_le_mul_sum x w hi hlen (fun a ha => List.le_maximum_of_mem ha hhi)
      (fun v hv => le_of_lt (hw v hv))

/-- Witness for c7_mean_between_min_max at throughputs 800 and 1600 with
weights 10 and 5: the mean lies between 800 and 1600. -/
theorem c7_mean_between_min_max_witness :
    (([800, 1600] : List ℚ) ≠ []) ∧ (∀ v ∈ ([10, 5] : List ℚ), (0 : ℚ) < v) ∧
    ([800, 1600] : List ℚ).minimum = ((800 : ℚ) : WithTop ℚ) ∧
    ([800, 1600] : List ℚ).maximum = ((1600 : ℚ) : WithBot ℚ) ∧
    ∃ m : ℚ, (MeanStdDev [800, 1600] [10, 5]).1 = some m ∧ 800 ≤ m ∧ m ≤ 1600 := by
  have hw : ∀ v ∈ ([10, 5] : List ℚ), (0 : ℚ) < v := by decide
  exact ⟨by simp, hw, by decide, by decide,
    c7_mean_between_min_max [800, 1600] [10, 5] 800 1600 (by simp) rfl hw
      (by decide) (by decide)⟩

/-- Claim C8: when every sample of a non-empty set has the same positive
weight c, the weighted mean equals the unweighted arithmetic mean of the
sample values (exactly, in exact arithmetic). -/
theorem c8_equal_weights_mean (x : List ℚ) (c : ℚ) (hne : x ≠ []) (hc : 0 < c) :
    (MeanStdDev x (List.replicate x.length c)).1 = some (x.sum / (x.length : ℚ)) := by
  have hlen : x.length = (List.replicate x.length c).length :=
    (List.length_replicate _ _).symm
  have hsum : (List.replicate x.length c).sum = (x.length : ℚ) * c := by
    rw [List.sum_replicate]
    simp [nsmul_eq_mul]
  have hn0 : x.length ≠ 0 := fun h => hne (List.length_eq_zero.mp h)
  have hn : ((x.length : ℚ)) ≠ 0 := Nat.cast_ne_zero.mpr hn0
  have hs0 : (List.replicate x.length c).sum ≠ 0 := by
    rw [hsum]
    exact mul_ne_zero hn (ne_of_gt hc)
  show (MeanVariance x (List.replicate x.length c)).1 = _
  rw [MeanVariance_eq x _ hlen hs0]
  show some (dot x (List.replicate x.length c) / (List.replicate x.length c).sum) = _
  rw [dot_replicate, hsum, mul_div_mul_right _ _ (ne_of_gt hc)]

/-- Witness for c8_equal_weights_mean at samples 1 and 3 with common weight 2:
the mean is 2, the arithmetic mean. -/
theorem c8_equal_weights_mean_witness :
    (([1, 3] : List ℚ) ≠ []) ∧ ((0 : ℚ) < 2) ∧
    (MeanStdDev [1, 3] (List.replicate ([1, 3] : List ℚ).length 2)).1 = some 2 := by
  refine ⟨by simp, by norm_num, ?_⟩
  have h := c8_equal_weights_mean [1, 3] 2 (by simp) (by norm_num)
  rw [h]
  norm_num

/-- Claim C9: the loop of main visits the targets strictly in the given order,
one benchmark at a time (the loop body completes each probe before the next
begins and contains no inter-target concurrency), runs testing.Benchmark
exactly once per target, and appends the resulting throughput sample and its
weight in that same input order: the collected lists are exactly the in-order
images of the target list. -/
theorem c9_orchestrator_order (ts : List ProbeBehavior) :
    mainLoop ts
      = (ts.map (fun t => mbps (benchmark t)),
         ts.map (fun t => (((benchmark t).N : ℚ)))) :=
  mainLoop_eq_map ts

/-- Claim C10: whenever the configuration service responds with an HTTP status
other than 200, Load returns an error and never a decoded Config; status 403
yields the error "invalid API token", and any other non-200 status yields an
error naming that status code. -/
theorem c10_load_non200 (status : ℕ) (decoded : Except String Config)
    (h : status ≠ 200) :
    (∀ cfg, Load status decoded ≠ Except.ok cfg) ∧
    (status = 403 → Load status decoded = Except.error "invalid API token") ∧
    (status ≠ 403 →
      Load status decoded = Except.error ("non-200 status code: " ++ toString status)) := by
  unfold Load
  rw [if_neg h]
  refine ⟨?_, ?_, ?_⟩
  · intro cfg
    by_cases h4 : status = 403 <;> simp [h4]
  · intro h4
    simp [h4]
  · intro h4
    simp [h4]

/-- Witness for c10_load_non200 at statuses 403 and 500, with a body that
would decode successfully: the decoded Config is discarded and an error is
returned. -/
theorem c10_load_non200_witness :
    ((403 : ℕ) ≠ 200) ∧
    Load 403 (Except.ok ⟨⟨"", "", ⟨"", ""⟩, ""⟩, []⟩)
      = Except.error "invalid API token" ∧
    ((500 : ℕ) ≠ 200) ∧
    Load 500 (Except.ok ⟨⟨"", "", ⟨"", ""⟩, ""⟩, []⟩)
      = Except.error ("non-200 status code: " ++ toString (500 : ℕ)) := by
  refine ⟨by decide, ?_, by decide, ?_⟩
  · exact (c10_load_non200 403 _ (by decide)).2.1 rfl
  · exact (c10_load_non200 500 _ (by decide)).2.2 (by decide)
